import Mathlib

/-!
Verification of the bbgo `xmaker` cross-exchange market-making core.

This file gives a shallow embedding of the functions the claims talk about:

* `aggregatePrice` (pkg/strategy/xmaker/strategy.go, lines 163-187),
* the `updateQuote` quoting tick (same file, lines 195-551),
* the `Hedge` routine and the `hedgeWorker` tick body (lines 553-672 and 804-846),
* `checkAndUpdateSequenceNumber` and the ticker/match stream handlers
  (pkg/exchange/coinbase/stream_handlers.go),
* `FuturesBatchOrdersResponse.Unmarshal` (binanceapi batch-order response).

Fixed-point decimal quantities (`fixedpoint.Value`) are embedded as `ℚ`, and
instants as `ℚ` milliseconds.  Helpers that live outside the packaged sources
(`types.PriceHeartBeat`, `bbgo.Quota`, `types.Market.TruncateQuantity`,
`bbgo.AdjustQuantityByMaxAmount`) are modelled from the specification and say
so in their doc comments.
-/

namespace BBGO

/-- One price level of an order-book side (`types.PriceVolume`). -/
structure PriceVolume where
  price : ℚ
  volume : ℚ
deriving DecidableEq, Repr

/-- The accumulation loop of `aggregatePrice` (strategy.go lines 174-183):
`q` is the remaining required quantity and `totalAmount` the accumulator.
When a level's volume covers `q`, the loop adds `q * price` and stops;
otherwise it consumes the whole level and continues with `q - volume`. -/
def aggLoop : List PriceVolume → ℚ → ℚ → ℚ
  | [], _, totalAmount => totalAmount
  | pv :: rest, q, totalAmount =>
    if q ≤ pv.volume then totalAmount + q * pv.price
    else aggLoop rest (q - pv.volume) (totalAmount + pv.volume * pv.price)

/-- `aggregatePrice` (strategy.go lines 163-187): volume-weighted price to
fill `requiredQuantity` at the top of one side of the source book.
Empty side returns zero; a first level whose volume already covers the
required quantity returns that level's price; otherwise the walk's
accumulated amount is divided by the required quantity. -/
def aggregatePrice (pvs : List PriceVolume) (requiredQuantity : ℚ) : ℚ :=
  match pvs with
  | [] => 0
  | pv0 :: _ =>
    if requiredQuantity ≤ pv0.volume then pv0.price
    else aggLoop pvs requiredQuantity 0 / requiredQuantity

/-- Accumulator-free form of `aggLoop` (used only in proofs). -/
def fillAmount : List PriceVolume → ℚ → ℚ
  | [], _ => 0
  | pv :: rest, q =>
    if q ≤ pv.volume then q * pv.price
    else pv.volume * pv.price + fillAmount rest (q - pv.volume)

/-- Total volume of a book side. -/
def totalVolume (pvs : List PriceVolume) : ℚ :=
  (pvs.map (fun pv => pv.volume)).sum

/-- Total amount (volume × price summed) of a book side. -/
def totalAmountOf (pvs : List PriceVolume) : ℚ :=
  (pvs.map (fun pv => pv.volume * pv.price)).sum

/-- Order side (`types.SideType`). -/
inductive Side
  | buy
  | sell
deriving DecidableEq, Repr

/-- Order type (`types.OrderType`), restricted to the kinds the strategy
submits. -/
inductive OrderType
  | limit
  | market
deriving DecidableEq, Repr

/-- The fields of `types.SubmitOrder` the claims talk about.  Market orders
carry price `0`. -/
structure SubmitOrder where
  side : Side
  price : ℚ
  quantity : ℚ
  orderType : OrderType
deriving DecidableEq, Repr

/-- The fields of `types.Market` the strategy uses (spec §3 "Market"). -/
structure Market where
  minQuantity : ℚ
  minNotional : ℚ
  stepSize : ℚ
  tickSize : ℚ
deriving DecidableEq, Repr

/-- strategy.go line 28: `lastPriceModifier = 1.001`, applied to the price
when shrinking a buy hedge to the available quote balance. -/
def lastPriceModifier : ℚ := 1.001

/-- strategy.go line 29: `minGap = 1.02`, the multiplier of the hedge
minimum-notional and minimum-quantity rejection tests. -/
def minGap : ℚ := 1.02

/-- Modelled from the spec: `types.Market.TruncateQuantity` (pkg/types is
not under src/) — §4.4: "quantity snapped to `stepSize` by truncation
(never rounded up)".  A non-positive step size leaves the quantity
unchanged. -/
def Market.TruncateQuantity (m : Market) (q : ℚ) : ℚ :=
  if 0 < m.stepSize then (⌊q / m.stepSize⌋ : ℚ) * m.stepSize else q

/-- Modelled from the spec: `bbgo.AdjustQuantityByMaxAmount` (pkg/bbgo is
not under src/) — §4.5 step 6: reduce the quantity so that
`quantity × price ≤ maxAmount`; a quantity already within the amount is
kept. -/
def AdjustQuantityByMaxAmount (quantity price maxAmount : ℚ) : ℚ :=
  if maxAmount < quantity * price then maxAmount / price else quantity

/-- Inputs of one `Strategy.Hedge` call (strategy.go 553-672): the `pos`
argument, the state read from the strategy and the source session, and the
outcomes of the external calls (order formatting and submission). -/
structure HedgeEnv where
  pos : ℚ
  lastPrice : ℚ
  bestAsk : Option ℚ
  bestBid : Option ℚ
  quoteAvailable : Option ℚ
  baseAvailable : Option ℚ
  sourceMarket : Market
  coveredPosition : ℚ
  activeMakerOrders : List SubmitOrder
  orderStore : List SubmitOrder
  rateReservation : Option Bool
  formatOK : Bool
  submitOK : Bool
deriving DecidableEq, Repr

/-- The strategy state that `Hedge` can mutate. -/
structure HedgeState where
  coveredPosition : ℚ
  activeMakerOrders : List SubmitOrder
  orderStore : List SubmitOrder
deriving DecidableEq, Repr

/-- Result of one `Hedge` call: all early returns are `skipped`, a failed
`BatchPlaceOrder` is `submitError`, and a successful submission carries the
submitted order. -/
inductive HedgeOutcome
  | skipped
  | submitError
  | submitted (order : SubmitOrder)
deriving DecidableEq, Repr

/-- The strategy state as it is before the `Hedge` call. -/
def HedgeEnv.initState (env : HedgeEnv) : HedgeState :=
  ⟨env.coveredPosition, env.activeMakerOrders, env.orderStore⟩

/-- strategy.go 622-629: a pending hedge-error rate reservation that is not
OK aborts the hedge; no reservation, or an OK one (after sleeping through
its delay), lets the hedge proceed. -/
def rateLimitBlocked : Option Bool → Bool
  | some ok => !ok
  | none => false

/-- The hedge side chosen at strategy.go 554-563: buy by default, sell when
`pos` is negative. -/
def hedgeSide (pos : ℚ) : Side := if pos < 0 then .sell else .buy

/-- The price used for the hedge notional (strategy.go 565-578): best ask
of the depth-1 book copy for a buy, best bid for a sell, falling back to
the strategy's `lastPrice`. -/
def hedgePrice (env : HedgeEnv) : ℚ :=
  match hedgeSide env.pos with
  | .buy => env.bestAsk.getD env.lastPrice
  | .sell => env.bestBid.getD env.lastPrice

/-- The balance-adjusted, step-truncated hedge quantity (strategy.go
586-610).  A buy is shrunk (at price × 1.001) to the available quote
balance and truncated; a sell is capped at the available base balance; the
result is truncated to the step size. -/
def adjustedQuantity (env : HedgeEnv) : ℚ :=
  let quantity := |env.pos|
  let lastPrice := hedgePrice env
  let notional := quantity * lastPrice
  let quantity :=
    match hedgeSide env.pos with
    | .buy =>
      match env.quoteAvailable with
      | some avail =>
        if avail < notional then
          env.sourceMarket.TruncateQuantity
            (AdjustQuantityByMaxAmount quantity (lastPrice * lastPriceModifier) avail)
        else quantity
      | none => quantity
    | .sell =>
      match env.baseAvailable with
      | some avail => if avail < quantity then avail else quantity
      | none => quantity
  env.sourceMarket.TruncateQuantity quantity

/-- `Strategy.Hedge` (strategy.go 553-672).  Returns the outcome together
with the strategy state after the call.  On a successful submission the
`orderCreateCallback` (lines 650-653) adds the created order to both the
order store and `activeMakerOrders`, and the covered position is updated by
the signed quantity (lines 666-671). -/
def hedge (env : HedgeEnv) : HedgeOutcome × HedgeState :=
  let st0 := env.initState
  if env.pos = 0 then (.skipped, st0)
  else
    let side := hedgeSide env.pos
    let lastPrice := hedgePrice env
    let notional := |env.pos| * lastPrice
    if notional ≤ env.sourceMarket.minNotional then (.skipped, st0)
    else
      let quantity := adjustedQuantity env
      if notional ≤ env.sourceMarket.minNotional * minGap then (.skipped, st0)
      else if quantity ≤ env.sourceMarket.minQuantity * minGap then (.skipped, st0)
      else if rateLimitBlocked env.rateReservation then (.skipped, st0)
      else if env.formatOK = false then (.skipped, st0)
      else
        let order : SubmitOrder := ⟨side, 0, quantity, .market⟩
        if env.submitOK then
          (.submitted order,
            { coveredPosition :=
                if side = .sell then env.coveredPosition + quantity
                else env.coveredPosition - quantity,
              activeMakerOrders := env.activeMakerOrders ++ [order],
              orderStore := env.orderStore ++ [order] })
        else (.submitError, st0)

/-- The hedge decision of one `hedgeWorker` tick (strategy.go 824-839):
compute the uncovered position `position − coveredPosition` and call
`Hedge` with its negation when hedging is enabled and its magnitude
exceeds the source market's minimum quantity; otherwise do nothing. -/
def hedgeWorkerTick (disableHedge : Bool) (position : ℚ) (env : HedgeEnv) :
    Option (HedgeOutcome × HedgeState) :=
  let uncoverPosition := position - env.coveredPosition
  if ¬ disableHedge = true ∧ env.sourceMarket.minQuantity < |uncoverPosition| then
    some (hedge { env with pos := -uncoverPosition })
  else none

/-- Concrete environment for the C2 witness: position 2, covered 0, ample
balances, all external calls succeeding. -/
def hedgeEnvC2 : HedgeEnv where
  pos := 0
  lastPrice := 10
  bestAsk := some 11
  bestBid := some 10
  quoteAvailable := some 1000
  baseAvailable := some 5
  sourceMarket := ⟨1/100, 1, 1/10, 1/100⟩
  coveredPosition := 0
  activeMakerOrders := []
  orderStore := []
  rateReservation := none
  formatOK := true
  submitOK := true

/-- Concrete environment for the C4 counterexample: a sell hedge of 2 at
price 10 (pre-adjustment notional 20) capped by the base balance to 1, so
the adjusted notional 10 is below `minNotional × 1.02 = 10.2`. -/
def hedgeEnvC4 : HedgeEnv where
  pos := -2
  lastPrice := 10
  bestAsk := some 10
  bestBid := some 10
  quoteAvailable := some 1000
  baseAvailable := some 1
  sourceMarket := ⟨1/2, 10, 1/100, 1/100⟩
  coveredPosition := 0
  activeMakerOrders := []
  orderStore := []
  rateReservation := none
  formatOK := true
  submitOK := true

/-- Concrete environment for the C4 witness: a sell hedge whose
pre-adjustment notional 1 is already below `minNotional × 1.02`. -/
def hedgeEnvC4w : HedgeEnv where
  pos := -1
  lastPrice := 1
  bestAsk := some 1
  bestBid := some 1
  quoteAvailable := some 1000
  baseAvailable := some 5
  sourceMarket := ⟨1/100, 10, 1/10, 1/100⟩
  coveredPosition := 0
  activeMakerOrders := []
  orderStore := []
  rateReservation := none
  formatOK := true
  submitOK := true

/-- The coinbase stream message types that reach
`checkAndUpdateSequenceNumber` in the handlers in scope (the `MessageType`
enum itself is defined outside src/; `handleTickerMessage` and
`handleMatchMessage` carry the wire names "ticker" and "match"). -/
inductive MessageType
  | ticker
  | matched
deriving DecidableEq, Repr

/-- Wire name of a message type. -/
def MessageType.raw : MessageType → String
  | .ticker => "ticker"
  | .matched => "match"

/-- The sequence cursor key built at stream_handlers.go 572:
`fmt.Sprintf("%s-%s", msgType, productId)`. -/
def seqKey (msgType : MessageType) (productId : String) : String :=
  msgType.raw ++ "-" ++ productId

/-- The per-key sequence cursor map (`lastSequenceMsgMap`); a Go map reads
a missing key as the zero value `0`. -/
abbrev SeqMap := String → Int

/-- `checkAndUpdateSequenceNumber` (stream_handlers.go 568-579): a message
is accepted iff its sequence number strictly exceeds the recorded cursor
for its `(messageType, productId)` key; on acceptance the cursor is set to
the message's sequence number, otherwise the map is unchanged. -/
def checkAndUpdateSequenceNumber (st : SeqMap) (msgType : MessageType)
    (productId : String) (currentSeqNum : Int) : Bool × SeqMap :=
  let key := seqKey msgType productId
  let latestSeq := st key
  if currentSeqNum ≤ latestSeq then (false, st)
  else (true, fun k => if k = key then currentSeqNum else st k)

/-- A stream message as seen by the sequence check. -/
structure StreamMsg where
  msgType : MessageType
  productId : String
  sequence : Int
deriving DecidableEq, Repr

/-- The ticker/match handlers (stream_handlers.go 263-279): each message is
processed (its trade emitted) exactly when the sequence check accepts it.
Returns the processed messages in order. -/
def processMessages (st : SeqMap) : List StreamMsg → List StreamMsg
  | [] => []
  | m :: rest =>
    let r := checkAndUpdateSequenceNumber st m.msgType m.productId m.sequence
    if r.1 then m :: processMessages r.2 rest
    else processMessages r.2 rest

/-- Sequence numbers of the messages with the given type and product, in
processing order. -/
def seqsFor (msgType : MessageType) (productId : String)
    (l : List StreamMsg) : List Int :=
  (l.filter (fun m => m.msgType == msgType && m.productId == productId)).map
    (fun m => m.sequence)

/-- Abstract payload of a successfully parsed batch order
(`FuturesOrderResponse`); the Go zero value is `⟨0⟩`. -/
structure FuturesOrderResponse where
  orderId : Int
deriving DecidableEq, Repr

/-- One well-formed item of a batch-orders response array: either an API
error object `{"code": c, "msg": m}` or an order object. -/
inductive BatchItem
  | errObj (code : Int) (msg : String)
  | orderObj (o : FuturesOrderResponse)
deriving DecidableEq, Repr

/-- Result of `FuturesBatchOrdersResponse.Unmarshal`; an entry of `errors`
is `some (code, msg)` when the item at that index was detected as an API
error. -/
structure FuturesBatchOrdersResponse where
  orders : List FuturesOrderResponse
  errors : List (Option (Int × String))
deriving DecidableEq, Repr

/-- The loop of `Unmarshal` (src/unnamed/part_001 lines 39-54): an item
that parses as an API error with non-zero code or non-empty message sets
`errors[i]`; any other item is parsed as an order and APPENDED to `orders`
(the degenerate error object with code 0 and empty message re-parses as a
zero-valued order). -/
def unmarshalLoop :
    List BatchItem → ℕ → FuturesBatchOrdersResponse → FuturesBatchOrdersResponse
  | [], _, r => r
  | it :: rest, i, r =>
    match it with
    | .errObj c m =>
      if c ≠ 0 ∨ m ≠ "" then
        unmarshalLoop rest (i + 1) { r with errors := r.errors.set i (some (c, m)) }
      else
        unmarshalLoop rest (i + 1) { r with orders := r.orders ++ [⟨0⟩] }
    | .orderObj o =>
      unmarshalLoop rest (i + 1) { r with orders := r.orders ++ [o] }

/-- `FuturesBatchOrdersResponse.Unmarshal` (src/unnamed/part_001 lines
30-57) on a well-formed array of N items: pre-allocates `errors` with N
nil entries and `orders` with N zero-valued entries
(`make([]FuturesOrderResponse, len(rawMsgs))`), then runs the per-item
loop, which appends each parsed order after the pre-allocated prefix. -/
def FuturesBatchOrdersResponse.Unmarshal (items : List BatchItem) :
    FuturesBatchOrdersResponse :=
  unmarshalLoop items 0
    ⟨List.replicate items.length ⟨0⟩, List.replicate items.length none⟩

/-- Modelled from the spec: `types.PriceHeartBeat` (pkg/types is not under
src/) — spec §3 "Heartbeat": per side, the last observed best price and the
last change instant.  Instants are ℚ milliseconds. -/
structure PriceHeartBeat where
  lastPrice : ℚ
  lastChangeTime : ℚ
deriving DecidableEq, Repr

/-- strategy.go line 31: `priceUpdateTimeout = 30 * time.Second`, in
milliseconds. -/
def priceUpdateTimeout : ℚ := 30000

/-- Modelled from the spec (§3 "Heartbeat"): updating a heartbeat with the
current best price at instant `now` records a change when the price
differs; it reports stale (second component `true`) when the price is
unchanged for more than `priceUpdateTimeout`. -/
def PriceHeartBeat.update (b : PriceHeartBeat) (current now : ℚ) :
    PriceHeartBeat × Bool :=
  if current = b.lastPrice then
    (b, if priceUpdateTimeout < now - b.lastChangeTime then true else false)
  else (⟨current, now⟩, false)

/-- Modelled from the spec: `bbgo.Quota` (pkg/bbgo is not under src/) —
§4.2: a one-sided reservation ledger; `lock` succeeds iff the remaining
available exceeds the request; `commit` forgets the pending locks keeping
the available reduced; `rollback` returns the pending locks to the
available balance. -/
structure Quota where
  available : ℚ
  locked : ℚ
deriving DecidableEq, Repr

/-- §4.2: seed the ledger with an available fund. -/
def Quota.add (q : Quota) (fund : ℚ) : Quota :=
  { q with available := q.available + fund }

/-- §4.2: tentative reservation; succeeds iff available exceeds the
request. -/
def Quota.lock (q : Quota) (fund : ℚ) : Quota × Bool :=
  if fund < q.available then
    ({ available := q.available - fund, locked := q.locked + fund }, true)
  else (q, false)

/-- §4.2: promote the pending locks. -/
def Quota.commit (q : Quota) : Quota := { q with locked := 0 }

/-- §4.2: undo the pending locks. -/
def Quota.rollback (q : Quota) : Quota := ⟨q.available + q.locked, 0⟩

/-- Modelled from the spec: `bbgo.QuotaTransaction` — the two-sided
(base, quote) per-pass ledger; commit and rollback act on both sides. -/
structure QuotaTransaction where
  baseAsset : Quota
  quoteAsset : Quota
deriving DecidableEq, Repr

/-- Commit both sides of the transaction. -/
def QuotaTransaction.commit (t : QuotaTransaction) : QuotaTransaction :=
  ⟨t.baseAsset.commit, t.quoteAsset.commit⟩

/-- Roll back both sides of the transaction. -/
def QuotaTransaction.rollback (t : QuotaTransaction) : QuotaTransaction :=
  ⟨t.baseAsset.rollback, t.quoteAsset.rollback⟩

/-- The `Strategy` configuration fields read by `updateQuote`.  The layer
scale (`bbgo.LayerScale`, outside src/) is abstracted as a partial function
from the 1-based layer index. -/
structure StrategyConfig where
  quantity : ℚ
  quantityMultiplier : ℚ
  quantityScale : Option (ℕ → Option ℚ)
  maxExposurePosition : ℚ
  stopHedgeBaseBalance : ℚ
  stopHedgeQuoteBalance : ℚ
  bidMargin : ℚ
  askMargin : ℚ
  pips : ℚ
  numLayers : ℕ
  useDepthPrice : Bool
  depthQuantity : ℚ
  enableBollBandMargin : Bool
  bollBandMargin : ℚ
  bollBandMarginFactor : ℚ

/-- Inputs of one `updateQuote` tick (strategy.go 195-551): outcomes of the
external calls, the source book, the heartbeat states and clock, the
balances, the markets, the position and the configuration. -/
structure QuoteEnv where
  gracefulCancelOK : Bool
  numOfActiveOrders : ℕ
  circuitBreakerHalted : Bool
  bestBid : Option PriceVolume
  bestAsk : Option PriceVolume
  bidHeartBeat : PriceHeartBeat
  askHeartBeat : PriceHeartBeat
  now : ℚ
  bookValid : Bool
  bidSideBook : List PriceVolume
  askSideBook : List PriceVolume
  makerBaseAvailable : Option ℚ
  makerQuoteAvailable : Option ℚ
  hedgeBaseAvailable : Option ℚ
  hedgeQuoteAvailable : Option ℚ
  makerMarket : Market
  sourceMarket : Market
  position : ℚ
  bollUpBand : ℚ
  bollDownBand : ℚ
  cfg : StrategyConfig
  formatOK : Bool

/-- Result of one `updateQuote` tick: one constructor per early return, in
source order; `submit` carries the generated maker orders. -/
inductive QuoteOutcome
  | cancelFailed
  | activeOrdersRemain
  | halted
  | noPrice
  | staleBid
  | staleAsk
  | invalidBook
  | bothDisabled
  | bollBandZero
  | scaleError
  | noOrders
  | formatError
  | submit (orders : List SubmitOrder)
deriving DecidableEq, Repr

/-- The balance gates of strategy.go 254-313: seed the maker and hedge
quota ledgers from the available balances, disabling a side when the
relevant balance does not exceed its minimum (with the stop-hedge reserves
subtracted on the hedge side).  A missing balance entry adds no quota and
sets no flag, as in the source.  Returns
`(disableMakerBid, disableMakerAsk, makerQuota, hedgeQuota)`. -/
def balanceGates (env : QuoteEnv) :
    Bool × Bool × QuotaTransaction × QuotaTransaction :=
  let mq0 : QuotaTransaction := ⟨⟨0, 0⟩, ⟨0, 0⟩⟩
  let hq0 : QuotaTransaction := ⟨⟨0, 0⟩, ⟨0, 0⟩⟩
  let askDisabled1mq1 :=
    match env.makerBaseAvailable with
    | some avail =>
      if env.makerMarket.minQuantity < avail then
        (false, { mq0 with baseAsset := mq0.baseAsset.add avail })
      else (true, mq0)
    | none => (false, mq0)
  let bidDisabled1mq2 :=
    match env.makerQuoteAvailable with
    | some avail =>
      if env.makerMarket.minNotional < avail then
        (false, { askDisabled1mq1.2 with
                  quoteAsset := askDisabled1mq1.2.quoteAsset.add avail })
      else (true, askDisabled1mq1.2)
    | none => (false, askDisabled1mq1.2)
  let bidDisabled2hq1 :=
    match env.hedgeBaseAvailable with
    | some avail =>
      if 0 < env.cfg.stopHedgeBaseBalance then
        let minAvailable := env.cfg.stopHedgeBaseBalance + env.sourceMarket.minQuantity
        if minAvailable < avail then
          (false, { hq0 with baseAsset := hq0.baseAsset.add (avail - minAvailable) })
        else (true, hq0)
      else if env.sourceMarket.minQuantity < avail then
        (false, { hq0 with baseAsset := hq0.baseAsset.add avail })
      else (true, hq0)
    | none => (false, hq0)
  let askDisabled2hq2 :=
    match env.hedgeQuoteAvailable with
    | some avail =>
      if 0 < env.cfg.stopHedgeQuoteBalance then
        let minAvailable := env.cfg.stopHedgeQuoteBalance + env.sourceMarket.minNotional
        if minAvailable < avail then
          (false, { bidDisabled2hq1.2 with
                    quoteAsset := bidDisabled2hq1.2.quoteAsset.add (avail - minAvailable) })
        else (true, bidDisabled2hq1.2)
      else if env.sourceMarket.minNotional < avail then
        (false, { bidDisabled2hq1.2 with
                  quoteAsset := bidDisabled2hq1.2.quoteAsset.add avail })
      else (true, bidDisabled2hq1.2)
    | none => (false, bidDisabled2hq1.2)
  (bidDisabled1mq2.1 || bidDisabled2hq1.1,
   askDisabled1mq1.1 || askDisabled2hq2.1,
   bidDisabled1mq2.2, askDisabled2hq2.2)

/-- The max-exposure gate, strategy.go 315-328 exactly as written: when
`maxExposurePosition > 0`, the first branch tests
`pos.Compare(maxExposurePosition.Neg()) > 0` — that is `-max < pos` — and
disables the ask; only otherwise does the `else if` test `max < pos` and
disable the bid.  Returns `(disableMakerBid, disableMakerAsk)`. -/
def applyMaxExposure (maxExposurePosition pos : ℚ)
    (disableBid disableAsk : Bool) : Bool × Bool :=
  if 0 < maxExposurePosition then
    if -maxExposurePosition < pos then (disableBid, true)
    else if maxExposurePosition < pos then (true, disableAsk)
    else (disableBid, disableAsk)
  else (disableBid, disableAsk)

/-- The Bollinger-band regime adjustment (strategy.go 347-393): `none` is
the early return on a zero band value; a best bid below the down band
widens the ask margin and scales the pips by `downBand / bestBid`; a best
ask above the up band widens the bid margin and scales the (possibly
already scaled) pips by `bestAsk / upBand`.  Returns
`(bidMargin, askMargin, pips)`. -/
def bollAdjust (env : QuoteEnv) (bestBidPrice bestAskPrice : ℚ) :
    Option (ℚ × ℚ × ℚ) :=
  if env.cfg.enableBollBandMargin then
    if env.bollUpBand = 0 ∨ env.bollDownBand = 0 then none
    else
      let down :=
        if bestBidPrice < env.bollDownBand then
          let ratio := env.bollDownBand / bestBidPrice
          (env.cfg.askMargin + env.cfg.bollBandMargin * ratio * env.cfg.bollBandMarginFactor,
           env.cfg.pips * ratio)
        else (env.cfg.askMargin, env.cfg.pips)
      let up :=
        if env.bollUpBand < bestAskPrice then
          let ratio := bestAskPrice / env.bollUpBand
          (env.cfg.bidMargin + env.cfg.bollBandMargin * ratio * env.cfg.bollBandMarginFactor,
           down.2 * ratio)
        else (env.cfg.bidMargin, down.2)
      some (up.1, down.1, up.2)
  else some (env.cfg.bidMargin, env.cfg.askMargin, env.cfg.pips)

/-- The mutable state threaded through the layer loop of strategy.go
407-522: per-side quantities (overridden by the scale, grown by the
multiplier), accumulated quantities, the per-side price variables (which
persist across layers, so without depth pricing the margin compounds), the
two quota ledgers and the orders generated so far. -/
structure LayerState where
  bidQuantity : ℚ
  askQuantity : ℚ
  accBid : ℚ
  accAsk : ℚ
  bidPrice : ℚ
  askPrice : ℚ
  makerQuota : QuotaTransaction
  hedgeQuota : QuotaTransaction
  orders : List SubmitOrder

/-- One maker-bid layer (strategy.go 408-463); `none` aborts the whole
tick on a quantity-scale error. -/
def bidLayerStep (env : QuoteEnv) (bidMargin pips : ℚ) (i : ℕ)
    (st : LayerState) : Option LayerState :=
  let scaled : Option ℚ :=
    match env.cfg.quantityScale with
    | some scale => scale (i + 1)
    | none => some st.bidQuantity
  match scaled with
  | none => none
  | some bidQuantity =>
    let accBid := st.accBid + bidQuantity
    let bidPrice :=
      if env.cfg.useDepthPrice then
        if 0 < env.cfg.depthQuantity then
          aggregatePrice env.bidSideBook env.cfg.depthQuantity
        else aggregatePrice env.bidSideBook accBid
      else st.bidPrice
    let bidPrice := bidPrice * (1 - bidMargin)
    let bidPrice :=
      if 0 < i ∧ 0 < pips then
        bidPrice - pips * ((i : ℚ) * env.makerMarket.tickSize)
      else bidPrice
    let lock1 := st.makerQuota.quoteAsset.lock (bidQuantity * bidPrice)
    let makerQuota := { st.makerQuota with quoteAsset := lock1.1 }
    let lock2 :=
      if lock1.2 then st.hedgeQuota.baseAsset.lock bidQuantity
      else (st.hedgeQuota.baseAsset, false)
    let hedgeQuota := { st.hedgeQuota with baseAsset := lock2.1 }
    let committed :=
      if lock1.2 && lock2.2 then
        (makerQuota.commit, hedgeQuota.commit,
         st.orders ++ [⟨.buy, bidPrice, bidQuantity, .limit⟩])
      else (makerQuota.rollback, hedgeQuota.rollback, st.orders)
    let bidQuantity :=
      if 0 < env.cfg.quantityMultiplier then bidQuantity * env.cfg.quantityMultiplier
      else bidQuantity
    some { st with
           bidQuantity := bidQuantity, accBid := accBid, bidPrice := bidPrice,
           makerQuota := committed.1, hedgeQuota := committed.2.1,
           orders := committed.2.2 }

/-- One maker-ask layer (strategy.go 466-521), mirroring the bid layer
with `× (1 + askMargin)` and `+ i × pips × tickSize`. -/
def askLayerStep (env : QuoteEnv) (askMargin pips : ℚ) (i : ℕ)
    (st : LayerState) : Option LayerState :=
  let scaled : Option ℚ :=
    match env.cfg.quantityScale with
    | some scale => scale (i + 1)
    | none => some st.askQuantity
  match scaled with
  | none => none
  | some askQuantity =>
    let accAsk := st.accAsk + askQuantity
    let askPrice :=
      if env.cfg.useDepthPrice then
        if 0 < env.cfg.depthQuantity then
          aggregatePrice env.askSideBook env.cfg.depthQuantity
        else aggregatePrice env.askSideBook accAsk
      else st.askPrice
    let askPrice := askPrice * (1 + askMargin)
    let askPrice :=
      if 0 < i ∧ 0 < pips then
        askPrice + pips * ((i : ℚ) * env.makerMarket.tickSize)
      else askPrice
    let lock1 := st.makerQuota.baseAsset.lock askQuantity
    let makerQuota := { st.makerQuota with baseAsset := lock1.1 }
    let lock2 :=
      if lock1.2 then st.hedgeQuota.quoteAsset.lock (askQuantity * askPrice)
      else (st.hedgeQuota.quoteAsset, false)
    let hedgeQuota := { st.hedgeQuota with quoteAsset := lock2.1 }
    let committed :=
      if lock1.2 && lock2.2 then
        (makerQuota.commit, hedgeQuota.commit,
         st.orders ++ [⟨.sell, askPrice, askQuantity, .limit⟩])
      else (makerQuota.rollback, hedgeQuota.rollback, st.orders)
    let askQuantity :=
      if 0 < env.cfg.quantityMultiplier then askQuantity * env.cfg.quantityMultiplier
      else askQuantity
    some { st with
           askQuantity := askQuantity, accAsk := accAsk, askPrice := askPrice,
           makerQuota := committed.1, hedgeQuota := committed.2.1,
           orders := committed.2.2 }

/-- One full layer iteration (bid part then ask part, each skipped when its
side is disabled). -/
def layerStep (env : QuoteEnv) (disableBid disableAsk : Bool)
    (bidMargin askMargin pips : ℚ) (i : ℕ) (st : LayerState) :
    Option LayerState :=
  match (if disableBid then some st else bidLayerStep env bidMargin pips i st) with
  | none => none
  | some st1 => if disableAsk then some st1 else askLayerStep env askMargin pips i st1

/-- The layer loop for `i ∈ [0, numLayers)`: `i` is the current index and
the second argument the number of layers left. -/
def layerLoop (env : QuoteEnv) (disableBid disableAsk : Bool)
    (bidMargin askMargin pips : ℚ) : ℕ → ℕ → LayerState → Option LayerState
  | _, 0, st => some st
  | i, n + 1, st =>
    match layerStep env disableBid disableAsk bidMargin askMargin pips i st with
    | none => none
    | some st1 => layerLoop env disableBid disableAsk bidMargin askMargin pips (i + 1) n st1

/-- `Strategy.updateQuote` (strategy.go 195-551): the full quoting tick in
source order — graceful cancel, leftover active orders, circuit breaker,
best prices, heartbeats, book-copy validity, balance gates, max-exposure
gate, both-sides-disabled return, Bollinger adjustment, the layer loop,
and submission. -/
def updateQuote (env : QuoteEnv) : QuoteOutcome :=
  if ¬ env.gracefulCancelOK then .cancelFailed
  else if 0 < env.numOfActiveOrders then .activeOrdersRemain
  else if env.circuitBreakerHalted then .halted
  else
    match env.bestBid, env.bestAsk with
    | some bestBid, some bestAsk =>
      if (env.bidHeartBeat.update bestBid.price env.now).2 then .staleBid
      else if (env.askHeartBeat.update bestAsk.price env.now).2 then .staleAsk
      else if ¬ env.bookValid then .invalidBook
      else
        let gates := balanceGates env
        let flags := applyMaxExposure env.cfg.maxExposurePosition env.position
          gates.1 gates.2.1
        if flags.2 ∧ flags.1 then .bothDisabled
        else
          match bollAdjust env bestBid.price bestAsk.price with
          | none => .bollBandZero
          | some margins =>
            let st0 : LayerState :=
              ⟨env.cfg.quantity, env.cfg.quantity, 0, 0, bestBid.price, bestAsk.price,
               gates.2.2.1, gates.2.2.2, []⟩
            match layerLoop env flags.1 flags.2 margins.1 margins.2.1 margins.2.2
                0 env.cfg.numLayers st0 with
            | none => .scaleError
            | some st =>
              if st.orders = [] then .noOrders
              else if ¬ env.formatOK then .formatError
              else .submit st.orders
    | _, _ => .noPrice

/-- Concrete environment for C1: `maxExposurePosition = 10`, base position
`11` (over-long), a single layer of quantity 1 and ample balances. -/
def quoteEnvC1 : QuoteEnv where
  gracefulCancelOK := true
  numOfActiveOrders := 0
  circuitBreakerHalted := false
  bestBid := some ⟨100, 1⟩
  bestAsk := some ⟨101, 1⟩
  bidHeartBeat := ⟨0, 0⟩
  askHeartBeat := ⟨0, 0⟩
  now := 1000
  bookValid := true
  bidSideBook := [⟨100, 1⟩]
  askSideBook := [⟨101, 1⟩]
  makerBaseAvailable := some 100
  makerQuoteAvailable := some 100000
  hedgeBaseAvailable := some 100
  hedgeQuoteAvailable := some 100000
  makerMarket := ⟨1/100, 10, 1/100, 1/100⟩
  sourceMarket := ⟨1/100, 10, 1/100, 1/100⟩
  position := 11
  bollUpBand := 0
  bollDownBand := 0
  cfg := { quantity := 1, quantityMultiplier := 0, quantityScale := none,
           maxExposurePosition := 10, stopHedgeBaseBalance := 0,
           stopHedgeQuoteBalance := 0, bidMargin := 3/1000, askMargin := 3/1000,
           pips := 0, numLayers := 1, useDepthPrice := false, depthQuantity := 0,
           enableBollBandMargin := false, bollBandMargin := 1/1000,
           bollBandMarginFactor := 1 }
  formatOK := true

/-- Concrete environment for the C5 witness: the best bid price equals the
bid heartbeat's last observed price and more than 30 s have passed since
its last change. -/
def quoteEnvC5 : QuoteEnv where
  gracefulCancelOK := true
  numOfActiveOrders := 0
  circuitBreakerHalted := false
  bestBid := some ⟨100, 1⟩
  bestAsk := some ⟨101, 1⟩
  bidHeartBeat := ⟨100, 0⟩
  askHeartBeat := ⟨0, 0⟩
  now := 40000
  bookValid := true
  bidSideBook := [⟨100, 1⟩]
  askSideBook := [⟨101, 1⟩]
  makerBaseAvailable := some 100
  makerQuoteAvailable := some 100000
  hedgeBaseAvailable := some 100
  hedgeQuoteAvailable := some 100000
  makerMarket := ⟨1/100, 10, 1/100, 1/100⟩
  sourceMarket := ⟨1/100, 10, 1/100, 1/100⟩
  position := 0
  bollUpBand := 0
  bollDownBand := 0
  cfg := { quantity := 1, quantityMultiplier := 0, quantityScale := none,
           maxExposurePosition := 0, stopHedgeBaseBalance := 0,
           stopHedgeQuoteBalance := 0, bidMargin := 3/1000, askMargin := 3/1000,
           pips := 0, numLayers := 1, useDepthPrice := false, depthQuantity := 0,
           enableBollBandMargin := false, bollBandMargin := 1/1000,
           bollBandMarginFactor := 1 }
  formatOK := true

/-- Concrete environment for C9: a successful sell hedge of 2. -/
def hedgeEnvC9 : HedgeEnv where
  pos := -2
  lastPrice := 10
  bestAsk := some 11
  bestBid := some 10
  quoteAvailable := some 1000
  baseAvailable := some 5
  sourceMarket := ⟨1/100, 1, 1/10, 1/100⟩
  coveredPosition := 0
  activeMakerOrders := []
  orderStore := []
  rateReservation := none
  formatOK := true
  submitOK := true

end BBGO

namespace BBGO

theorem aggLoop_eq_fillAmount (pvs : List PriceVolume) (q t : ℚ) :
    aggLoop pvs q t = t + fillAmount pvs q := by
  induction pvs generalizing q t with
  | nil => simp [aggLoop, fillAmount]
  | cons pv rest ih =>
    simp only [aggLoop, fillAmount]
    split
    · ring
    · rw [ih]; ring

theorem fillAmount_of_total_lt (pvs : List PriceVolume) (q : ℚ)
    (hv : ∀ pv ∈ pvs, 0 ≤ pv.volume) (hlt : totalVolume pvs < q) :
    fillAmount pvs q = totalAmountOf pvs := by
  induction pvs generalizing q with
  | nil => simp [fillAmount, totalAmountOf]
  | cons pv rest ih =>
    have hrest : ∀ p ∈ rest, 0 ≤ p.volume := fun p hp => hv p (List.mem_cons_of_mem _ hp)
    have htv : 0 ≤ totalVolume rest := by
      unfold totalVolume
      apply List.sum_nonneg
      intro x hx
      obtain ⟨p, hp, rfl⟩ := List.mem_map.mp hx
      exact hrest p hp
    have htot : totalVolume (pv :: rest) = pv.volume + totalVolume rest := by
      simp [totalVolume]
    have hnot : ¬ q ≤ pv.volume := by
      rw [htot] at hlt
      push_neg
      linarith
    simp only [fillAmount, hnot, if_false]
    rw [ih (q - pv.volume) hrest (by rw [htot] at hlt; linarith)]
    simp [totalAmountOf]

theorem fillAmount_le (pvs : List PriceVolume) (c q : ℚ)
    (hq : 0 ≤ q) (hc : 0 ≤ c)
    (hv : ∀ pv ∈ pvs, 0 ≤ pv.volume) (hp : ∀ pv ∈ pvs, pv.price ≤ c) :
    fillAmount pvs q ≤ q * c := by
  induction pvs generalizing q with
  | nil =>
    simp only [fillAmount]
    positivity
  | cons pv rest ih =>
    have hv0 : 0 ≤ pv.volume := hv pv (List.mem_cons_self _ _)
    have hp0 : pv.price ≤ c := hp pv (List.mem_cons_self _ _)
    have hvr : ∀ p ∈ rest, 0 ≤ p.volume := fun p hx => hv p (List.mem_cons_of_mem _ hx)
    have hpr : ∀ p ∈ rest, p.price ≤ c := fun p hx => hp p (List.mem_cons_of_mem _ hx)
    simp only [fillAmount]
    split
    · exact mul_le_mul_of_nonneg_left hp0 hq
    · rename_i hnot
      push_neg at hnot
      have h1 : pv.volume * pv.price ≤ pv.volume * c :=
        mul_le_mul_of_nonneg_left hp0 hv0
      have h2 : fillAmount rest (q - pv.volume) ≤ (q - pv.volume) * c :=
        ih (q - pv.volume) (by linarith) hvr hpr
      nlinarith

theorem fillAmount_lipschitz (pvs : List PriceVolume) (c q₁ q₂ : ℚ)
    (h1 : 0 ≤ q₁) (h12 : q₁ ≤ q₂) (hc : 0 ≤ c)
    (hv : ∀ pv ∈ pvs, 0 ≤ pv.volume) (hp : ∀ pv ∈ pvs, pv.price ≤ c) :
    fillAmount pvs q₂ - fillAmount pvs q₁ ≤ c * (q₂ - q₁) := by
  induction pvs generalizing q₁ q₂ with
  | nil =>
    simp only [fillAmount, sub_zero, sub_self]
    nlinarith
  | cons pv rest ih =>
    have hv0 : 0 ≤ pv.volume := hv pv (List.mem_cons_self _ _)
    have hp0 : pv.price ≤ c := hp pv (List.mem_cons_self _ _)
    have hvr : ∀ p ∈ rest, 0 ≤ p.volume := fun p hx => hv p (List.mem_cons_of_mem _ hx)
    have hpr : ∀ p ∈ rest, p.price ≤ c := fun p hx => hp p (List.mem_cons_of_mem _ hx)
    simp only [fillAmount]
    by_cases h2v : q₂ ≤ pv.volume
    · have h1v : q₁ ≤ pv.volume := le_trans h12 h2v
      simp only [h2v, if_true, h1v]
      nlinarith
    · simp only [h2v, if_false]
      push_neg at h2v
      by_cases h1v : q₁ ≤ pv.volume
      · simp only [h1v, if_true]
        have hfill : fillAmount rest (q₂ - pv.volume) ≤ (q₂ - pv.volume) * c :=
          fillAmount_le rest c (q₂ - pv.volume) (by linarith) hc hvr hpr
        nlinarith
      · simp only [h1v, if_false]
        push_neg at h1v
        have hIH := ih (q₁ - pv.volume) (q₂ - pv.volume) (by linarith) (by linarith) hvr hpr
        nlinarith [hIH]

theorem fillAmount_avg_anti (pvs : List PriceVolume) (q₁ q₂ : ℚ)
    (hq1 : 0 < q₁) (h12 : q₁ ≤ q₂)
    (hv : ∀ pv ∈ pvs, 0 ≤ pv.volume) (hp : ∀ pv ∈ pvs, 0 ≤ pv.price)
    (hdec : pvs.Pairwise (fun a b => b.price ≤ a.price)) :
    fillAmount pvs q₂ * q₁ ≤ fillAmount pvs q₁ * q₂ := by
  induction pvs generalizing q₁ q₂ with
  | nil => simp [fillAmount]
  | cons pv rest ih =>
    have hv0 : 0 ≤ pv.volume := hv pv (List.mem_cons_self _ _)
    have hp0 : 0 ≤ pv.price := hp pv (List.mem_cons_self _ _)
    have hvr : ∀ p ∈ rest, 0 ≤ p.volume := fun p hx => hv p (List.mem_cons_of_mem _ hx)
    have hpr : ∀ p ∈ rest, 0 ≤ p.price := fun p hx => hp p (List.mem_cons_of_mem _ hx)
    have hle : ∀ p ∈ rest, p.price ≤ pv.price := (List.pairwise_cons.mp hdec).1
    have hdr : rest.Pairwise (fun a b => b.price ≤ a.price) := (List.pairwise_cons.mp hdec).2
    simp only [fillAmount]
    by_cases h2v : q₂ ≤ pv.volume
    · have h1v : q₁ ≤ pv.volume := le_trans h12 h2v
      simp only [h2v, if_true, h1v]
      ring_nf
      nlinarith
    · simp only [h2v, if_false]
      push_neg at h2v
      by_cases h1v : q₁ ≤ pv.volume
      · simp only [h1v, if_true]
        have hfill : fillAmount rest (q₂ - pv.volume) ≤ (q₂ - pv.volume) * pv.price :=
          fillAmount_le rest pv.price (q₂ - pv.volume) (by linarith) hp0 hvr hle
        nlinarith
      · simp only [h1v, if_false]
        push_neg at h1v
        have hIH := ih (q₁ - pv.volume) (q₂ - pv.volume) (by linarith) (by linarith) hvr hpr hdr
        have hlip : fillAmount rest (q₂ - pv.volume) - fillAmount rest (q₁ - pv.volume) ≤
            pv.price * ((q₂ - pv.volume) - (q₁ - pv.volume)) :=
          fillAmount_lipschitz rest pv.price (q₁ - pv.volume) (q₂ - pv.volume)
            (by linarith) (by linarith) hp0 hvr hle
        have hmul : pv.volume * (fillAmount rest (q₂ - pv.volume) - fillAmount rest (q₁ - pv.volume)) ≤
            pv.volume * (pv.price * (q₂ - q₁)) := by
          have := mul_le_mul_of_nonneg_left hlip hv0
          calc pv.volume * (fillAmount rest (q₂ - pv.volume) - fillAmount rest (q₁ - pv.volume))
              ≤ pv.volume * (pv.price * ((q₂ - pv.volume) - (q₁ - pv.volume))) := this
            _ = pv.volume * (pv.price * (q₂ - q₁)) := by ring
        nlinarith

theorem le_fillAmount (pvs : List PriceVolume) (c q : ℚ)
    (hq : 0 ≤ q) (hqt : q ≤ totalVolume pvs)
    (hv : ∀ pv ∈ pvs, 0 ≤ pv.volume) (hp : ∀ pv ∈ pvs, c ≤ pv.price) :
    q * c ≤ fillAmount pvs q := by
  induction pvs generalizing q with
  | nil =>
    have hq0 : q = 0 := le_antisymm (by simpa [totalVolume] using hqt) hq
    simp [fillAmount, hq0]
  | cons pv rest ih =>
    have hv0 : 0 ≤ pv.volume := hv pv (List.mem_cons_self _ _)
    have hp0 : c ≤ pv.price := hp pv (List.mem_cons_self _ _)
    have hvr : ∀ p ∈ rest, 0 ≤ p.volume := fun p hx => hv p (List.mem_cons_of_mem _ hx)
    have hpr : ∀ p ∈ rest, c ≤ p.price := fun p hx => hp p (List.mem_cons_of_mem _ hx)
    have htot : totalVolume (pv :: rest) = pv.volume + totalVolume rest := by
      simp [totalVolume]
    simp only [fillAmount]
    split
    · exact mul_le_mul_of_nonneg_left hp0 hq
    · rename_i hnot
      push_neg at hnot
      have h2 : (q - pv.volume) * c ≤ fillAmount rest (q - pv.volume) :=
        ih (q - pv.volume) (by linarith) (by rw [htot] at hqt; linarith) hvr hpr
      nlinarith

theorem fillAmount_lipschitz_lower (pvs : List PriceVolume) (c q₁ q₂ : ℚ)
    (h1 : 0 ≤ q₁) (h12 : q₁ ≤ q₂) (hqt : q₂ ≤ totalVolume pvs)
    (hv : ∀ pv ∈ pvs, 0 ≤ pv.volume) (hp : ∀ pv ∈ pvs, c ≤ pv.price) :
    c * (q₂ - q₁) ≤ fillAmount pvs q₂ - fillAmount pvs q₁ := by
  induction pvs generalizing q₁ q₂ with
  | nil =>
    have hq2 : q₂ = 0 := le_antisymm (by simpa [totalVolume] using hqt) (le_trans h1 h12)
    have hq1 : q₁ = 0 := le_antisymm (hq2 ▸ h12) h1
    simp [fillAmount, hq1, hq2]
  | cons pv rest ih =>
    have hv0 : 0 ≤ pv.volume := hv pv (List.mem_cons_self _ _)
    have hp0 : c ≤ pv.price := hp pv (List.mem_cons_self _ _)
    have hvr : ∀ p ∈ rest, 0 ≤ p.volume := fun p hx => hv p (List.mem_cons_of_mem _ hx)
    have hpr : ∀ p ∈ rest, c ≤ p.price := fun p hx => hp p (List.mem_cons_of_mem _ hx)
    have htot : totalVolume (pv :: rest) = pv.volume + totalVolume rest := by
      simp [totalVolume]
    simp only [fillAmount]
    by_cases h2v : q₂ ≤ pv.volume
    · have h1v : q₁ ≤ pv.volume := le_trans h12 h2v
      simp only [h2v, if_true, h1v]
      nlinarith
    · simp only [h2v, if_false]
      push_neg at h2v
      by_cases h1v : q₁ ≤ pv.volume
      · simp only [h1v, if_true]
        have hfill : (q₂ - pv.volume) * c ≤ fillAmount rest (q₂ - pv.volume) :=
          le_fillAmount rest c (q₂ - pv.volume) (by linarith)
            (by rw [htot] at hqt; linarith) hvr hpr
        nlinarith
      · simp only [h1v, if_false]
        push_neg at h1v
        have hIH := ih (q₁ - pv.volume) (q₂ - pv.volume) (by linarith) (by linarith)
          (by rw [htot] at hqt; linarith) hvr hpr
        nlinarith [hIH]

theorem fillAmount_avg_mono (pvs : List PriceVolume) (q₁ q₂ : ℚ)
    (hq1 : 0 < q₁) (h12 : q₁ ≤ q₂) (hqt : q₂ ≤ totalVolume pvs)
    (hv : ∀ pv ∈ pvs, 0 ≤ pv.volume)
    (hinc : pvs.Pairwise (fun a b => a.price ≤ b.price)) :
    fillAmount pvs q₁ * q₂ ≤ fillAmount pvs q₂ * q₁ := by
  induction pvs generalizing q₁ q₂ with
  | nil => simp [fillAmount]
  | cons pv rest ih =>
    have hv0 : 0 ≤ pv.volume := hv pv (List.mem_cons_self _ _)
    have hvr : ∀ p ∈ rest, 0 ≤ p.volume := fun p hx => hv p (List.mem_cons_of_mem _ hx)
    have hge : ∀ p ∈ rest, pv.price ≤ p.price := (List.pairwise_cons.mp hinc).1
    have hir : rest.Pairwise (fun a b => a.price ≤ b.price) := (List.pairwise_cons.mp hinc).2
    have htot : totalVolume (pv :: rest) = pv.volume + totalVolume rest := by
      simp [totalVolume]
    simp only [fillAmount]
    by_cases h2v : q₂ ≤ pv.volume
    · have h1v : q₁ ≤ pv.volume := le_trans h12 h2v
      simp only [h2v, if_true, h1v]
      ring_nf
      nlinarith
    · simp only [h2v, if_false]
      push_neg at h2v
      by_cases h1v : q₁ ≤ pv.volume
      · simp only [h1v, if_true]
        have hfill : (q₂ - pv.volume) * pv.price ≤ fillAmount rest (q₂ - pv.volume) :=
          le_fillAmount rest pv.price (q₂ - pv.volume) (by linarith)
            (by rw [htot] at hqt; linarith) hvr hge
        nlinarith
      · simp only [h1v, if_false]
        push_neg at h1v
        have hIH := ih (q₁ - pv.volume) (q₂ - pv.volume) (by linarith) (by linarith)
          (by rw [htot] at hqt; linarith) hvr hir
        have hlip : pv.price * ((q₂ - pv.volume) - (q₁ - pv.volume)) ≤
            fillAmount rest (q₂ - pv.volume) - fillAmount rest (q₁ - pv.volume) :=
          fillAmount_lipschitz_lower rest pv.price (q₁ - pv.volume) (q₂ - pv.volume)
            (by linarith) (by linarith) (by rw [htot] at hqt; linarith) hvr hge
        have hmul : pv.volume * (pv.price * (q₂ - q₁)) ≤
            pv.volume * (fillAmount rest (q₂ - pv.volume) - fillAmount rest (q₁ - pv.volume)) := by
          have h := mul_le_mul_of_nonneg_left hlip hv0
          calc pv.volume * (pv.price * (q₂ - q₁))
              = pv.volume * (pv.price * ((q₂ - pv.volume) - (q₁ - pv.volume))) := by ring
            _ ≤ pv.volume * (fillAmount rest (q₂ - pv.volume) - fillAmount rest (q₁ - pv.volume)) := h
        nlinarith

theorem totalVolume_nonneg (pvs : List PriceVolume)
    (hv : ∀ pv ∈ pvs, 0 ≤ pv.volume) : 0 ≤ totalVolume pvs := by
  unfold totalVolume
  apply List.sum_nonneg
  intro x hx
  obtain ⟨p, hp, rfl⟩ := List.mem_map.mp hx
  exact hv p hp

/-- C3: `aggregatePrice` contract (strategy.go 163-187 against spec §4.1).
An empty side yields zero; a first level whose volume covers `Q` yields the
first level's price; otherwise the result is the walk's accumulated amount
(`fillAmount`, i.e. `volume_i * price_i` over the consumed levels with the
last level consumed only for the residual) divided by `Q`; and when the
total book volume is below `Q` the accumulated amount is the whole book's
amount, so the shortfall is implicitly priced at zero. -/
theorem aggregatePrice_contract (pvs : List PriceVolume) (Q : ℚ)
    (hv : ∀ pv ∈ pvs, 0 ≤ pv.volume) :
    (pvs = [] → aggregatePrice pvs Q = 0)
  ∧ (∀ pv0 rest, pvs = pv0 :: rest → Q ≤ pv0.volume →
      aggregatePrice pvs Q = pv0.price)
  ∧ (∀ pv0 rest, pvs = pv0 :: rest → pv0.volume < Q →
      aggregatePrice pvs Q = fillAmount pvs Q / Q)
  ∧ (totalVolume pvs < Q → aggregatePrice pvs Q = totalAmountOf pvs / Q) := by
  refine ⟨?_, ?_, ?_, ?_⟩
  · rintro rfl; rfl
  · rintro pv0 rest rfl h
    simp [aggregatePrice, h]
  · rintro pv0 rest rfl h
    have hnot : ¬ Q ≤ pv0.volume := not_le.mpr h
    simp [aggregatePrice, hnot, aggLoop_eq_fillAmount]
  · intro hlt
    match pvs, hv with
    | [], _ => simp [aggregatePrice, totalAmountOf]
    | pv0 :: rest, hv =>
      have hvr : ∀ p ∈ rest, 0 ≤ p.volume := fun p hx => hv p (List.mem_cons_of_mem _ hx)
      have htot : totalVolume (pv0 :: rest) = pv0.volume + totalVolume rest := by
        simp [totalVolume]
      have hv0le : pv0.volume ≤ totalVolume (pv0 :: rest) := by
        have := totalVolume_nonneg rest hvr
        rw [htot]; linarith
      have hnot : ¬ Q ≤ pv0.volume := by
        push_neg
        exact lt_of_le_of_lt hv0le hlt
      simp only [aggregatePrice, hnot, if_false]
      rw [aggLoop_eq_fillAmount, zero_add, fillAmount_of_total_lt _ _ hv hlt]

/-- Witness for C3 at the repository's own test book
`[(1000,1),(1200,1),(1400,1)]` with `Q = 2`. -/
theorem aggregatePrice_contract_witness :
    aggregatePrice [⟨1000, 1⟩, ⟨1200, 1⟩, ⟨1400, 1⟩] 2
      = fillAmount [⟨1000, 1⟩, ⟨1200, 1⟩, ⟨1400, 1⟩] 2 / 2 :=
  (aggregatePrice_contract [⟨1000, 1⟩, ⟨1200, 1⟩, ⟨1400, 1⟩] 2 (by decide)).2.2.1
    ⟨1000, 1⟩ [⟨1200, 1⟩, ⟨1400, 1⟩] rfl (by norm_num)

/-- C10: `aggregatePrice` is total and never divides by zero.  With
non-negative level volumes: a non-positive required quantity on a non-empty
side is answered by the first-level branch (no division), and the division
branch is reached only when the required quantity strictly exceeds the
first level's non-negative volume, hence is strictly positive. -/
theorem aggregatePrice_total_safe (pvs : List PriceVolume) (Q : ℚ)
    (hv : ∀ pv ∈ pvs, 0 ≤ pv.volume) :
    (∀ pv0 rest, pvs = pv0 :: rest → Q ≤ 0 → aggregatePrice pvs Q = pv0.price)
  ∧ (∀ pv0 rest, pvs = pv0 :: rest → ¬ Q ≤ pv0.volume →
      0 < Q ∧ aggregatePrice pvs Q = aggLoop pvs Q 0 / Q) := by
  constructor
  · rintro pv0 rest rfl hQ
    have h0 : 0 ≤ pv0.volume := hv pv0 (List.mem_cons_self _ _)
    simp [aggregatePrice, le_trans hQ h0]
  · rintro pv0 rest rfl hnot
    have h0 : 0 ≤ pv0.volume := hv pv0 (List.mem_cons_self _ _)
    push_neg at hnot
    refine ⟨lt_of_le_of_lt h0 hnot, ?_⟩
    simp [aggregatePrice, not_le.mpr hnot]

/-- Witness for C10: a non-positive required quantity returns the first
level's price. -/
theorem aggregatePrice_total_safe_witness :
    aggregatePrice [⟨7, 3⟩] 0 = 7 :=
  (aggregatePrice_total_safe [⟨7, 3⟩] 0 (by decide)).1 ⟨7, 3⟩ [] rfl le_rfl

/-- C6 counterexample: on an ask side with strictly increasing prices the
claimed inequality `aggregatePrice(side, Q₁) ≤ aggregatePrice(side, Q₂)`
fails once `Q₂` exceeds the side's total volume: with the single-level ask
side `[(10, 1)]` and `Q₁ = 1 < Q₂ = 2`, `aggregatePrice` returns `10` for
`Q₁` but `10 / 2 = 5` for `Q₂` (the shortfall is priced at zero). -/
theorem aggregatePrice_monotone_cex :
    ([⟨10, 1⟩] : List PriceVolume).Pairwise (fun a b => a.price < b.price)
  ∧ (0 : ℚ) < 1 ∧ (1 : ℚ) < 2
  ∧ ¬ aggregatePrice [⟨10, 1⟩] 1 ≤ aggregatePrice [⟨10, 1⟩] 2 := by
  refine ⟨by simp, by norm_num, by norm_num, ?_⟩
  norm_num [aggregatePrice, aggLoop]

/-- C6 (amended): VWAP monotonicity of `aggregatePrice`.  On a bid side
with non-negative, strictly decreasing level prices and non-negative level
volumes, `0 < Q₁ < Q₂` implies `aggregatePrice(side, Q₁) ≥
aggregatePrice(side, Q₂)`.  On an ask side with strictly increasing level
prices the mirrored inequality holds provided `Q₂` does not exceed the
side's total volume (beyond the book the shortfall is priced at zero and
the average falls, as the counterexample shows). -/
theorem aggregatePrice_monotone :
    (∀ (pvs : List PriceVolume) (q₁ q₂ : ℚ),
       (∀ pv ∈ pvs, 0 ≤ pv.volume) → (∀ pv ∈ pvs, 0 ≤ pv.price) →
       pvs.Pairwise (fun a b => b.price < a.price) →
       0 < q₁ → q₁ < q₂ → aggregatePrice pvs q₂ ≤ aggregatePrice pvs q₁)
  ∧ (∀ (pvs : List PriceVolume) (q₁ q₂ : ℚ),
       (∀ pv ∈ pvs, 0 ≤ pv.volume) →
       pvs.Pairwise (fun a b => a.price < b.price) →
       0 < q₁ → q₁ < q₂ → q₂ ≤ totalVolume pvs →
       aggregatePrice pvs q₁ ≤ aggregatePrice pvs q₂) := by
  constructor
  · intro pvs q₁ q₂ hv hp hdec hq1 h12
    match pvs with
    | [] => simp [aggregatePrice]
    | pv0 :: rest =>
      have hq2 : 0 < q₂ := lt_trans hq1 h12
      have hp0 : 0 ≤ pv0.price := hp pv0 (List.mem_cons_self _ _)
      have hple : ∀ pv ∈ pv0 :: rest, pv.price ≤ pv0.price := by
        intro pv hpv
        rcases List.mem_cons.mp hpv with h | h
        · rw [h]
        · exact le_of_lt ((List.pairwise_cons.mp hdec).1 pv h)
      by_cases h2v : q₂ ≤ pv0.volume
      · have h1v : q₁ ≤ pv0.volume := le_trans (le_of_lt h12) h2v
        simp [aggregatePrice, h2v, h1v]
      · by_cases h1v : q₁ ≤ pv0.volume
        · simp only [aggregatePrice, h2v, if_false, h1v, if_true]
          rw [aggLoop_eq_fillAmount, zero_add, div_le_iff₀ hq2]
          have := fillAmount_le (pv0 :: rest) pv0.price q₂ (le_of_lt hq2) hp0 hv hple
          linarith
        · simp only [aggregatePrice, h2v, if_false, h1v]
          rw [aggLoop_eq_fillAmount, aggLoop_eq_fillAmount, zero_add, zero_add,
            div_le_div_iff₀ hq2 hq1]
          exact fillAmount_avg_anti (pv0 :: rest) q₁ q₂ hq1 (le_of_lt h12) hv hp
            (hdec.imp (fun h => le_of_lt h))
  · intro pvs q₁ q₂ hv hinc hq1 h12 hqt
    match pvs with
    | [] => simp [aggregatePrice]
    | pv0 :: rest =>
      have hq2 : 0 < q₂ := lt_trans hq1 h12
      have hpge : ∀ pv ∈ pv0 :: rest, pv0.price ≤ pv.price := by
        intro pv hpv
        rcases List.mem_cons.mp hpv with h | h
        · rw [h]
        · exact le_of_lt ((List.pairwise_cons.mp hinc).1 pv h)
      by_cases h2v : q₂ ≤ pv0.volume
      · have h1v : q₁ ≤ pv0.volume := le_trans (le_of_lt h12) h2v
        simp [aggregatePrice, h2v, h1v]
      · by_cases h1v : q₁ ≤ pv0.volume
        · simp only [aggregatePrice, h2v, if_false, h1v, if_true]
          rw [aggLoop_eq_fillAmount, zero_add, le_div_iff₀ hq2]
          have := le_fillAmount (pv0 :: rest) pv0.price q₂ (le_of_lt hq2) hqt hv hpge
          linarith
        · simp only [aggregatePrice, h2v, if_false, h1v]
          rw [aggLoop_eq_fillAmount, aggLoop_eq_fillAmount, zero_add, zero_add,
            div_le_div_iff₀ hq1 hq2]
          exact fillAmount_avg_mono (pv0 :: rest) q₁ q₂ hq1 (le_of_lt h12) hqt hv
            (hinc.imp (fun h => le_of_lt h))

/-- Witness for C6 (amended): the bid book `[(10,1),(5,1)]` and the ask book
`[(5,1),(10,1)]` at `Q₁ = 1 < Q₂ = 2`. -/
theorem aggregatePrice_monotone_witness :
    aggregatePrice [⟨10, 1⟩, ⟨5, 1⟩] 2 ≤ aggregatePrice [⟨10, 1⟩, ⟨5, 1⟩] 1
  ∧ aggregatePrice [⟨5, 1⟩, ⟨10, 1⟩] 1 ≤ aggregatePrice [⟨5, 1⟩, ⟨10, 1⟩] 2 :=
  ⟨aggregatePrice_monotone.1 [⟨10, 1⟩, ⟨5, 1⟩] 1 2 (by decide) (by decide)
      (by decide) (by norm_num) (by norm_num),
   aggregatePrice_monotone.2 [⟨5, 1⟩, ⟨10, 1⟩] 1 2 (by decide) (by decide)
      (by norm_num) (by norm_num) (by norm_num [totalVolume])⟩

theorem hedge_submitted_eq (env : HedgeEnv) (order : SubmitOrder) (st : HedgeState)
    (h : hedge env = (.submitted order, st)) :
    order = ⟨hedgeSide env.pos, 0, adjustedQuantity env, .market⟩
  ∧ st = ⟨(if hedgeSide env.pos = .sell then env.coveredPosition + adjustedQuantity env
           else env.coveredPosition - adjustedQuantity env),
          env.activeMakerOrders ++ [order], env.orderStore ++ [order]⟩
  ∧ env.sourceMarket.minNotional * minGap < |env.pos| * hedgePrice env
  ∧ env.sourceMarket.minQuantity * minGap < adjustedQuantity env := by
  simp only [hedge] at h
  split at h
  · simp at h
  split at h
  · simp at h
  split at h
  · simp at h
  rename_i hgapN
  split at h
  · simp at h
  rename_i hgapQ
  split at h
  · simp at h
  split at h
  · simp at h
  split at h
  · rw [Prod.ext_iff] at h
    obtain ⟨ho, hst⟩ := h
    simp only at ho hst
    injection ho with ho
    subst ho
    subst hst
    push_neg at hgapN hgapQ
    exact ⟨rfl, rfl, hgapN, hgapQ⟩
  · simp at h

/-- C2: hedge direction and covered-position update (strategy.go 553-672
and 824-839).  In a hedging tick whose hedge order is submitted
successfully, the submitted order is a market order; a positive uncovered
position `position − coveredPosition` yields a sell whose quantity is added
to the covered position, and a negative one yields a buy whose quantity is
subtracted. -/
theorem hedgeWorkerTick_direction (disableHedge : Bool) (position : ℚ)
    (env : HedgeEnv) (order : SubmitOrder) (st : HedgeState)
    (h : hedgeWorkerTick disableHedge position env = some (.submitted order, st)) :
    order.orderType = .market
  ∧ (0 < position - env.coveredPosition →
      order.side = .sell ∧ st.coveredPosition = env.coveredPosition + order.quantity)
  ∧ (position - env.coveredPosition < 0 →
      order.side = .buy ∧ st.coveredPosition = env.coveredPosition - order.quantity) := by
  simp only [hedgeWorkerTick] at h
  split at h
  case isFalse => simp at h
  case isTrue hgate =>
  rw [Option.some.injEq] at h
  obtain ⟨ho, hst, -, -⟩ :=
    hedge_submitted_eq { env with pos := -(position - env.coveredPosition) } order st h
  subst ho
  subst hst
  refine ⟨rfl, fun hgt => ?_, fun hlt => ?_⟩
  · have hside : hedgeSide (env.coveredPosition - position) = .sell := by
      unfold hedgeSide
      rw [if_pos (by linarith)]
    have hside2 : hedgeSide (-(position - env.coveredPosition)) = .sell := by
      rwa [neg_sub]
    exact ⟨by simp [hside, hside2], by simp [hside, hside2]⟩
  · have hside : hedgeSide (env.coveredPosition - position) = .buy := by
      unfold hedgeSide
      rw [if_neg (by linarith)]
    have hside2 : hedgeSide (-(position - env.coveredPosition)) = .buy := by
      rwa [neg_sub]
    exact ⟨by simp [hside, hside2], by simp [hside, hside2]⟩

/-- Witness for C2: position 2, covered 0, successful sell hedge of 2. -/
theorem hedgeWorkerTick_direction_witness :
    (⟨Side.sell, 0, 2, OrderType.market⟩ : SubmitOrder).side = Side.sell
  ∧ (⟨(2 : ℚ), [⟨Side.sell, 0, 2, OrderType.market⟩], [⟨Side.sell, 0, 2, OrderType.market⟩]⟩ :
      HedgeState).coveredPosition
      = hedgeEnvC2.coveredPosition + (⟨Side.sell, 0, 2, OrderType.market⟩ : SubmitOrder).quantity :=
  (hedgeWorkerTick_direction false 2 hedgeEnvC2 ⟨Side.sell, 0, 2, OrderType.market⟩
      ⟨2, [⟨Side.sell, 0, 2, OrderType.market⟩], [⟨Side.sell, 0, 2, OrderType.market⟩]⟩
      (by norm_num [hedgeWorkerTick, hedge, hedgePrice, hedgeSide, adjustedQuantity,
        Market.TruncateQuantity, AdjustQuantityByMaxAmount, minGap, lastPriceModifier,
        hedgeEnvC2, HedgeEnv.initState, rateLimitBlocked])).2.1 (by norm_num [hedgeEnvC2])

/-- C4 counterexample: in `hedgeEnvC4` the sell hedge is capped by the base
balance from 2 to 1, making the adjusted notional `1 × 10 = 10 ≤
minNotional × 1.02 = 10.2`, yet the order is submitted — the rejection test
at strategy.go 612 reuses the notional computed from the pre-adjustment
quantity (20), so the claim that the test is recomputed from the adjusted
quantity is false. -/
theorem hedge_min_gap_cex :
    adjustedQuantity hedgeEnvC4 * hedgePrice hedgeEnvC4
        ≤ hedgeEnvC4.sourceMarket.minNotional * minGap
  ∧ (hedge hedgeEnvC4).1 = .submitted ⟨Side.sell, 0, 1, OrderType.market⟩ := by
  constructor
  · norm_num [adjustedQuantity, hedgePrice, hedgeSide, Market.TruncateQuantity,
      AdjustQuantityByMaxAmount, minGap, lastPriceModifier, hedgeEnvC4]
  · norm_num [hedge, hedgePrice, hedgeSide, adjustedQuantity, Market.TruncateQuantity,
      AdjustQuantityByMaxAmount, minGap, lastPriceModifier, hedgeEnvC4, HedgeEnv.initState, rateLimitBlocked]

/-- C4 (amended): after the balance adjustment and step truncation, the
hedge is rejected whenever the *pre-adjustment* notional
`|pos| × hedgePrice` is ≤ `minNotional × 1.02` or the adjusted quantity is
≤ `minQuantity × 1.02`; a submitted order therefore certifies both strict
inequalities, with the notional test using the quantity before adjustment
(strategy.go 580, 612, 617). -/
theorem hedge_min_gap (env : HedgeEnv) :
    (|env.pos| * hedgePrice env ≤ env.sourceMarket.minNotional * minGap →
       hedge env = (.skipped, env.initState))
  ∧ (adjustedQuantity env ≤ env.sourceMarket.minQuantity * minGap →
       hedge env = (.skipped, env.initState))
  ∧ (∀ order st, hedge env = (.submitted order, st) →
       env.sourceMarket.minNotional * minGap < |env.pos| * hedgePrice env
     ∧ env.sourceMarket.minQuantity * minGap < order.quantity
     ∧ order.quantity = adjustedQuantity env) := by
  refine ⟨fun hle => ?_, fun hle => ?_, fun order st h => ?_⟩
  · by_cases h0 : env.pos = 0
    · simp [hedge, h0]
    · by_cases h1 : |env.pos| * hedgePrice env ≤ env.sourceMarket.minNotional
      · simp [hedge, h0, h1]
      · simp [hedge, h0, h1, hle]
  · by_cases h0 : env.pos = 0
    · simp [hedge, h0]
    · by_cases h1 : |env.pos| * hedgePrice env ≤ env.sourceMarket.minNotional
      · simp [hedge, h0, h1]
      · by_cases h2 : |env.pos| * hedgePrice env ≤ env.sourceMarket.minNotional * minGap
        · simp [hedge, h0, h1, h2]
        · simp [hedge, h0, h1, h2, hle]
  · obtain ⟨ho, -, hn, hq⟩ := hedge_submitted_eq env order st h
    refine ⟨hn, ?_, ?_⟩
    · rw [ho]
      exact hq
    · rw [ho]

/-- Witness for C4 (amended): a hedge whose pre-adjustment notional 1 is
below `minNotional × 1.02 = 10.2` is skipped. -/
theorem hedge_min_gap_witness :
    hedge hedgeEnvC4w = (.skipped, hedgeEnvC4w.initState) :=
  (hedge_min_gap hedgeEnvC4w).1
    (by norm_num [hedgePrice, hedgeSide, minGap, hedgeEnvC4w])

/-- C5: stale-price safety (strategy.go 229-243).  If either the bid or
ask price heartbeat reports stale when updated with the current best
price, the tick returns before order generation and submits no maker
orders. -/
theorem updateQuote_stale_no_submit (env : QuoteEnv) (bid ask : PriceVolume)
    (hbid : env.bestBid = some bid) (hask : env.bestAsk = some ask)
    (hstale : (env.bidHeartBeat.update bid.price env.now).2 = true
            ∨ (env.askHeartBeat.update ask.price env.now).2 = true) :
    ∀ orders, updateQuote env ≠ .submit orders := by
  intro orders
  simp only [updateQuote, hbid, hask]
  split
  · simp
  split
  · simp
  split
  · simp
  split
  · simp
  rename_i hb
  split
  · simp
  rename_i ha
  rcases hstale with h | h
  · exact absurd h hb
  · exact absurd h ha

/-- Witness for C5: in `quoteEnvC5` the bid price has been unchanged for
40 s > 30 s, so no orders are submitted. -/
theorem updateQuote_stale_no_submit_witness :
    updateQuote quoteEnvC5 ≠ .submit [] :=
  updateQuote_stale_no_submit quoteEnvC5 ⟨100, 1⟩ ⟨101, 1⟩ rfl rfl
    (Or.inl (by norm_num [PriceHeartBeat.update, priceUpdateTimeout, quoteEnvC5])) []

/-- C1: the max-exposure gate is inverted (strategy.go 315-328).  With
`maxExposurePosition = 10` and base position `11 > 10`, the first branch
`pos.Compare(maxExposurePosition.Neg()) > 0` (that is `-10 < 11`) fires
and disables the ASK, the `else if` that would disable the bid is never
reached, and the tick generates and submits a BUY maker order of quantity
1 at `100 × (1 − 0.003) = 99.7` — the claim (and the code's own comments,
and upstream bbgo, which tests `pos.Compare(...Neg()) < 0`) require that
no bid order be generated when `pos > maxExposurePosition`. -/
theorem updateQuote_exposure_bug :
    applyMaxExposure 10 11 false false = (false, true)
  ∧ (10 : ℚ) < quoteEnvC1.position
  ∧ quoteEnvC1.cfg.maxExposurePosition = 10
  ∧ updateQuote quoteEnvC1 = .submit [⟨Side.buy, 997/10, 1, OrderType.limit⟩] := by
  refine ⟨by norm_num [applyMaxExposure], by norm_num [quoteEnvC1], rfl, ?_⟩
  norm_num [updateQuote, quoteEnvC1, balanceGates, applyMaxExposure, bollAdjust,
    layerLoop, layerStep, bidLayerStep, askLayerStep, Quota.add, Quota.lock,
    Quota.commit, Quota.rollback, QuotaTransaction.commit, QuotaTransaction.rollback,
    PriceHeartBeat.update, priceUpdateTimeout]

theorem seqKey_inj (t₁ t₂ : MessageType) (p₁ p₂ : String)
    (h : seqKey t₁ p₁ = seqKey t₂ p₂) : t₁ = t₂ ∧ p₁ = p₂ := by
  cases t₁ <;> cases t₂
  · refine ⟨rfl, ?_⟩
    have hd := congrArg String.data h
    simp [seqKey, MessageType.raw, String.data_append] at hd
    exact String.ext hd
  · exfalso
    have hd := congrArg String.data h
    simp [seqKey, MessageType.raw, String.data_append] at hd
  · exfalso
    have hd := congrArg String.data h
    simp [seqKey, MessageType.raw, String.data_append] at hd
  · refine ⟨rfl, ?_⟩
    have hd := congrArg String.data h
    simp [seqKey, MessageType.raw, String.data_append] at hd
    exact String.ext hd

theorem processMessages_sorted (msgs : List StreamMsg) (st : SeqMap)
    (t : MessageType) (p : String) :
    List.Chain' (· < ·) (seqsFor t p (processMessages st msgs))
  ∧ ∀ s ∈ seqsFor t p (processMessages st msgs), st (seqKey t p) < s := by
  induction msgs generalizing st with
  | nil => simp [processMessages, seqsFor]
  | cons m rest ih =>
    simp only [processMessages]
    by_cases hacc : m.sequence ≤ st (seqKey m.msgType m.productId)
    · have hr : checkAndUpdateSequenceNumber st m.msgType m.productId m.sequence
          = (false, st) := by
        simp [checkAndUpdateSequenceNumber, hacc]
      rw [hr]
      simpa using ih st
    · have hr : checkAndUpdateSequenceNumber st m.msgType m.productId m.sequence
          = (true, fun k => if k = seqKey m.msgType m.productId then m.sequence else st k) := by
        simp [checkAndUpdateSequenceNumber, hacc]
      rw [hr]
      simp only [Bool.true_eq, if_true]
      set st' : SeqMap :=
        fun k => if k = seqKey m.msgType m.productId then m.sequence else st k with hst'
      have ihs := ih st'
      push_neg at hacc
      by_cases hmatch : m.msgType = t ∧ m.productId = p
      · obtain ⟨h1, h2⟩ := hmatch
        have hkeq : seqKey m.msgType m.productId = seqKey t p := by rw [h1, h2]
        have hst'key : st' (seqKey t p) = m.sequence := by
          rw [hst']
          simp [hkeq]
        have hfilter : seqsFor t p (m :: processMessages st' rest)
            = m.sequence :: seqsFor t p (processMessages st' rest) := by
          simp [seqsFor, List.filter_cons, h1, h2]
        rw [hfilter]
        constructor
        · rw [List.chain'_cons']
          refine ⟨fun b hb => ?_, ihs.1⟩
          have hbmem : b ∈ seqsFor t p (processMessages st' rest) :=
            List.mem_of_mem_head? hb
          have := ihs.2 b hbmem
          rwa [hst'key] at this
        · intro s hs
          rcases List.mem_cons.mp hs with rfl | hs2
          · rw [← hkeq]
            exact hacc
          · have := ihs.2 s hs2
            rw [hst'key] at this
            have hlt : st (seqKey t p) < m.sequence := by
              rw [← hkeq]
              exact hacc
            exact lt_trans hlt this
      · have hkne : seqKey t p ≠ seqKey m.msgType m.productId := by
          intro he
          obtain ⟨he1, he2⟩ := seqKey_inj t m.msgType p m.productId he
          exact hmatch ⟨he1.symm, he2.symm⟩
        have hst'key : st' (seqKey t p) = st (seqKey t p) := by
          rw [hst']
          simp [hkne]
        have hcond : (m.msgType == t && m.productId == p) = false := by
          rw [Bool.and_eq_false_iff]
          by_cases h1 : m.msgType = t
          · right
            rw [beq_eq_false_iff_ne]
            intro h2
            exact hmatch ⟨h1, h2⟩
          · left
            rw [beq_eq_false_iff_ne]
            exact h1
        have hfilter : seqsFor t p (m :: processMessages st' rest)
            = seqsFor t p (processMessages st' rest) := by
          simp [seqsFor, List.filter_cons, hcond]
        rw [hfilter]
        exact ⟨ihs.1, fun s hs => hst'key ▸ ihs.2 s hs⟩

/-- C7: sequence-cursor semantics (stream_handlers.go 568-579 and the
ticker/match handlers at 263-279).  A message is accepted exactly when its
sequence number strictly exceeds the cursor recorded for its
`(messageType, productId)` key (a fresh key reads as 0); an update for one
key leaves every other key's cursor unchanged; the key encoding
`msgType ++ "-" ++ productId` is injective on the handled message types;
and consequently, from any start state, the processed sequence numbers of
any fixed `(messageType, productId)` key are strictly increasing. -/
theorem sequence_cursor_spec :
    (∀ (st : SeqMap) (t : MessageType) (p : String) (c : Int),
       (checkAndUpdateSequenceNumber st t p c).1 = true ↔ st (seqKey t p) < c)
  ∧ (∀ (st : SeqMap) (t : MessageType) (p : String) (c : Int) (k : String),
       k ≠ seqKey t p → (checkAndUpdateSequenceNumber st t p c).2 k = st k)
  ∧ (∀ (t₁ t₂ : MessageType) (p₁ p₂ : String),
       seqKey t₁ p₁ = seqKey t₂ p₂ → t₁ = t₂ ∧ p₁ = p₂)
  ∧ (∀ (st : SeqMap) (msgs : List StreamMsg) (t : MessageType) (p : String),
       List.Chain' (· < ·) (seqsFor t p (processMessages st msgs))) := by
  refine ⟨fun st t p c => ?_, fun st t p c k hk => ?_, seqKey_inj,
    fun st msgs t p => (processMessages_sorted msgs st t p).1⟩
  · constructor
    · intro h
      by_cases hc : c ≤ st (seqKey t p)
      · simp [checkAndUpdateSequenceNumber, hc] at h
      · push_neg at hc
        exact hc
    · intro h
      simp [checkAndUpdateSequenceNumber, not_le.mpr h]
  · simp only [checkAndUpdateSequenceNumber]
    split
    · rfl
    · simp [hk]

/-- Witness for C7: a fresh cursor map accepts sequence 5 for
`(ticker, BTC-USD)` without touching the unrelated key "x". -/
theorem sequence_cursor_spec_witness :
    (checkAndUpdateSequenceNumber (fun _ => 0) .ticker "BTC-USD" 5).2 "x" = 0 :=
  sequence_cursor_spec.2.1 (fun _ => 0) .ticker "BTC-USD" 5 "x" (by decide)

/-- C8: evaluating `FuturesBatchOrdersResponse.Unmarshal` at the
single-item array containing one valid order (id 42): `errors` is `[none]`
as claimed, but `orders` is `[⟨0⟩, ⟨42⟩]` — the pre-allocation
`make([]FuturesOrderResponse, len(rawMsgs))` followed by `append` leaves a
leading zero-valued entry and `orders` has length 2 ≠ 1, so the order is
not assigned at its own index, contradicting the claim and the field's own
doc comment ("length between 0 and N"). -/
theorem unmarshal_orders_bug :
    (FuturesBatchOrdersResponse.Unmarshal [.orderObj ⟨42⟩]).errors = [none]
  ∧ (FuturesBatchOrdersResponse.Unmarshal [.orderObj ⟨42⟩]).orders = [⟨0⟩, ⟨42⟩]
  ∧ (FuturesBatchOrdersResponse.Unmarshal [.orderObj ⟨42⟩]).orders.length ≠ 1 :=
  ⟨rfl, rfl, by decide⟩

/-- C9: the hedging path mutates `activeMakerOrders`.  In `hedgeEnvC9` the
hedge submission succeeds and the `orderCreateCallback` installed at
strategy.go 650-653 adds the created source-venue hedge order to
`activeMakerOrders`, so the set is NOT left unchanged by a successful
hedge, contradicting the claim. -/
theorem hedge_mutates_active_orders :
    (hedge hedgeEnvC9).1 = .submitted ⟨Side.sell, 0, 2, OrderType.market⟩
  ∧ (hedge hedgeEnvC9).2.activeMakerOrders ≠ hedgeEnvC9.activeMakerOrders := by
  constructor
  · norm_num [hedge, hedgePrice, hedgeSide, adjustedQuantity, Market.TruncateQuantity,
      AdjustQuantityByMaxAmount, minGap, lastPriceModifier, hedgeEnvC9, HedgeEnv.initState, rateLimitBlocked]
  · norm_num [hedge, hedgePrice, hedgeSide, adjustedQuantity, Market.TruncateQuantity,
      AdjustQuantityByMaxAmount, minGap, lastPriceModifier, hedgeEnvC9, HedgeEnv.initState, rateLimitBlocked]

end BBGO
